import Mathlib

/-!
Verification of the AquaSafe AI / PlanktoVision analysis pipeline.

This file gives a shallow embedding of the repository's analysis pipeline:
the per-class aggregation and overall-verdict logic of
`backend/services/yolo_analyzer.py` (`analyze_image_bytes`), the
detect-crop-classify loop of `backend/services/yolo_pipeline.py`
(`YoloPipeline.run`), the mock fallback of
`backend/services/inference_engine.py` (`run_inference_on_bytes`), the
no-model branch and aggregation of `backend/routes/live_detect.py`
(`analyze_snapshot`), the best-effort persistence of
`backend/routes/analyze_image.py` and `backend/routes/predict.py`, and the
SQLite history layer of `backend/database/db.py` together with the JSON
serialization of the per-class counts dictionary.

Detections produced by the external YOLO models are inputs of the embedded
functions (lists of boxes); Python floats are modelled as exact rationals,
and Python's `round` as round-half-to-even on rationals.
-/

namespace EMS

/-- The floor of a rational, written so that the kernel can evaluate it. -/
def rat_floor (q : ℚ) : ℤ := q.num / q.den

/-- Round-half-to-even on rationals: the rounding mode of Python's builtin
`round`. -/
def rhe (q : ℚ) : ℤ :=
  if q - (rat_floor q : ℚ) < 1/2 then rat_floor q
  else if 1/2 < q - (rat_floor q : ℚ) then rat_floor q + 1
  else if rat_floor q % 2 = 0 then rat_floor q else rat_floor q + 1

/-- Models Python's `round(q, ndigits)` on exact rationals. -/
def pyRound (ndigits : ℕ) (q : ℚ) : ℚ :=
  (rhe (q * 10 ^ ndigits) : ℚ) / 10 ^ ndigits

/-- Safety tier, as the strings `'Safe' | 'Caution' | 'Unsafe'` used by the
source. -/
inductive Safety where
  | Safe
  | Caution
  | Unsafe

deriving DecidableEq, Repr, Inhabited

/-- The `DEFAULT_SAFETY_MAP` of `yolo_analyzer.py`. -/
def DEFAULT_SAFETY_MAP : List (String × Safety) :=
  [("diatom", Safety.Safe), ("rotifer", Safety.Caution),
   ("copepod", Safety.Unsafe), ("algae", Safety.Caution)]

/-- Models `DEFAULT_SAFETY_MAP.get(cname, 'Safe')`: dictionary lookup defaulting to
`Safe` for unknown class labels. -/
def safety_get (c : String) : Safety :=
  (DEFAULT_SAFETY_MAP.lookup c).getD Safety.Safe

/-- The `SAFETY_DESCRIPTIONS` of `yolo_analyzer.py`. -/
def SAFETY_DESCRIPTIONS : Safety → String
  | Safety.Safe => "No immediate concern detected for this class."
  | Safety.Caution =>
      "Presence of this class may indicate moderate contamination; review recommended."
  | Safety.Unsafe => "High-risk organism detected. Immediate action recommended."

/-- One detection box as built in `analyze_image_bytes`:
`{'box': [x1, y1, x2, y2], 'confidence': conf_score, 'class': cls_name}`. -/
structure Box where
  x1 : ℤ
  y1 : ℤ
  x2 : ℤ
  y2 : ℤ
  confidence : ℚ
  cls : String

deriving DecidableEq, Repr

/-- One step of the aggregation loop of `analyze_image_bytes`: the pair of
dicts `counts[cname] += 1` and `conf_sums[cname] += confidence`, with a fresh
class appended at the end (Python dicts preserve insertion order). The two
dicts share their keys, so they are modelled as one association list
`(class, count, conf_sum)`. -/
def update_counts (acc : List (String × ℕ × ℚ)) (b : Box) : List (String × ℕ × ℚ) :=
  match acc with
  | [] => [(b.cls, 1, b.confidence)]
  | e :: rest =>
      if e.1 = b.cls then (e.1, e.2.1 + 1, e.2.2 + b.confidence) :: rest
      else e :: update_counts rest b

/-- The `counts` / `conf_sums` dictionaries after the aggregation loop of
`analyze_image_bytes`. -/
def counts_of (boxes : List Box) : List (String × ℕ × ℚ) :=
  boxes.foldl update_counts []

/-- One row of the `per_class` list built by `analyze_image_bytes`. -/
structure PerClassRow where
  cls : String
  count : ℕ
  percentage : ℚ
  avg_confidence : ℚ
  safety : Safety
  description : String

deriving DecidableEq, Repr, Inhabited

/-- The `per_class` list of `analyze_image_bytes` before sorting:
`avg_conf = conf_sums[cname]/cnt if cnt > 0 else 0`,
`percentage = round(cnt/total*100, 1) if total > 0 else 0.0`,
`safety = DEFAULT_SAFETY_MAP.get(cname, 'Safe')`. -/
def per_class_of (boxes : List Box) : List PerClassRow :=
  let total := boxes.length
  (counts_of boxes).map (fun e =>
    let cnt : ℕ := e.2.1
    let avg_conf : ℚ := if 0 < cnt then e.2.2 / (cnt : ℚ) else 0
    let percentage : ℚ :=
      if 0 < total then pyRound 1 ((cnt : ℚ) / (total : ℚ) * 100) else 0
    let safety := safety_get e.1
    { cls := e.1, count := cnt, percentage := percentage,
      avg_confidence := pyRound 3 avg_conf, safety := safety,
      description := SAFETY_DESCRIPTIONS safety })

/-- The sort key relation of `sorted(per_class, key=lambda x: x['count'],
reverse=True)`: `a` may come before `b` iff `a`'s count is at least `b`'s.
Python's `sorted` is stable, and `List.insertionSort` with this total
preorder is the stable descending-by-count sort, so the two agree. -/
def count_ge (a b : PerClassRow) : Prop := b.count ≤ a.count

instance : DecidableRel count_ge := fun a b => Nat.decLe _ _

/-- The sorted `per_class` list of `analyze_image_bytes`. -/
def per_class_sorted (boxes : List Box) : List PerClassRow :=
  List.insertionSort count_ge (per_class_of boxes)

/-- The `overall` verdict dict of `analyze_image_bytes`. -/
structure OverallVerdict where
  verdict : Safety
  reason : String

deriving DecidableEq, Repr

/-- The overall-verdict rule of `analyze_image_bytes` (lines 302-309). -/
def overall_verdict_of (boxes : List Box) : OverallVerdict :=
  let per_class := per_class_sorted boxes
  let unsafe_classes := per_class.filter (fun p => p.safety = Safety.Unsafe)
  let caution_classes := per_class.filter (fun p => p.safety = Safety.Caution)
  if 1 < unsafe_classes.length ∨ ∃ p ∈ unsafe_classes, 20 < p.percentage then
    ⟨Safety.Unsafe, "Multiple or dominant unsafe classes detected."⟩
  else if 0 < caution_classes.length then
    ⟨Safety.Caution, "One or more cautionary classes detected."⟩
  else ⟨Safety.Safe, "No concerning classes detected."⟩

/-- The aggregate part of the result dict of `analyze_image_bytes`
(`total_detections`, `per_class`, `overall_verdict`); the annotated image,
charts and PDF are external I/O and carry no aggregated information beyond
these fields. -/
structure AnalysisResult where
  total_detections : ℕ
  per_class : List PerClassRow
  overall_verdict : OverallVerdict

deriving DecidableEq, Repr

/-- The aggregation core of `analyze_image_bytes`, as a function of the boxes
decoded from the external model's output. -/
def analyze_result (boxes : List Box) : AnalysisResult :=
  { total_detections := boxes.length
    per_class := per_class_sorted boxes
    overall_verdict := overall_verdict_of boxes }

/-- Models `analyze_image_bytes` with its model guard (lines 243-245): when the
global `MODEL` is `None` it raises `RuntimeError` instead of analyzing. -/
def analyze_image_bytes (model_loaded : Bool) (boxes : List Box) :
    Except String AnalysisResult :=
  if model_loaded then Except.ok (analyze_result boxes)
  else Except.error "Model not initialized. Call initialize_model() first."

/-- The distinct class labels present in a detection list, in order of first
occurrence. -/
def distinct_labels (l : List Box) : List String :=
  l.foldl (fun acc b => if b.cls ∈ acc then acc else acc ++ [b.cls]) []

/-- How many detections of the list carry the given class label. -/
def label_count (c : String) (l : List Box) : ℕ :=
  (l.filter (fun b => b.cls = c)).length

/-- The sum of the confidences of the detections carrying the given label. -/
def label_conf_sum (c : String) (l : List Box) : ℚ :=
  ((l.filter (fun b => b.cls = c)).map Box.confidence).sum

/-- The overall-verdict rule as the spec words it: Unsafe when more than one
Unsafe-tier class is present or some Unsafe-tier class has percentage above
20; else Caution when some Caution-tier class is present; else Safe. Tiers
are looked up in the safety policy, unknown labels defaulting to Safe. -/
def verdict_spec (l : List Box) : Safety :=
  let total := l.length
  let labels := distinct_labels l
  let unsafe_labels := labels.filter (fun c => safety_get c = Safety.Unsafe)
  if 1 < unsafe_labels.length ∨
      ∃ c ∈ unsafe_labels, 20 < pyRound 1 ((label_count c l : ℚ) / (total : ℚ) * 100) then
    Safety.Unsafe
  else if ∃ c ∈ labels, safety_get c = Safety.Caution then Safety.Caution
  else Safety.Safe

/-- Total count across the aggregation dictionary. -/
def sum_counts (acc : List (String × ℕ × ℚ)) : ℕ :=
  (acc.map (fun e => e.2.1)).sum

/-- The per-class row determined by a class label and the detection list. -/
def row_of (l : List Box) (c : String) : PerClassRow :=
  let cnt := label_count c l
  let avg_conf : ℚ := if 0 < cnt then label_conf_sum c l / (cnt : ℚ) else 0
  let percentage : ℚ :=
    if 0 < l.length then pyRound 1 ((cnt : ℚ) / (l.length : ℚ) * 100) else 0
  let safety := safety_get c
  ⟨c, cnt, percentage, pyRound 3 avg_conf, safety, SAFETY_DESCRIPTIONS safety⟩

/-- One raw detection extracted from the detector's result tensor:
`(x1, y1, x2, y2, int(c), float(cf))`. -/
structure RawDet where
  x1 : ℤ
  y1 : ℤ
  x2 : ℤ
  y2 : ℤ
  cls_idx : ℕ
  conf : ℚ

deriving DecidableEq, Repr

/-- Outcome of the classification block of `YoloPipeline.run` for one crop:
the PIL conversion failed (`pil_crop is None`, classifier not called), the
classifier raised (caught by `except: pass`), the classifier returned a
`probs` tensor with its top index and confidence, or it returned no `probs`
and the fallback read of `boxes[0].conf` yielded (or did not yield) a
confidence. -/
inductive ClsEffect where
  | convertFailed
  | crashed
  | withProbs (top_idx : ℕ) (top_conf : ℚ)
  | noProbs (first_conf : Option ℚ)

deriving DecidableEq, Repr

/-- One entry of the `detections` list returned by `YoloPipeline.run`:
`{'bbox': [x1c, y1c, x2c, y2c], 'class_name': ..., 'confidence': round(...,
4)}`. -/
structure PipelineDet where
  x1 : ℤ
  y1 : ℤ
  x2 : ℤ
  y2 : ℤ
  class_name : String
  confidence : ℚ

deriving DecidableEq, Repr

/-- Models `max(0, min(bound - 1, v))`: the coordinate clamping of
`YoloPipeline.run`. -/
def clamp1 (bound : ℕ) (v : ℤ) : ℤ := max 0 (min ((bound : ℤ) - 1) v)

/-- The clamped crop rectangle `(x1c, y1c, x2c, y2c)` of one raw detection. -/
def clamp_box (w h : ℕ) (r : RawDet) : ℤ × ℤ × ℤ × ℤ :=
  (clamp1 w r.x1, clamp1 h r.y1, clamp1 w r.x2, clamp1 h r.y2)

/-- The final `(final_name, final_conf)` of one crop, starting from the
detector's name and confidence and applying the classification block's
outcome exactly as the source does. -/
def final_label (det_name : String) (det_conf : ℚ) (cls_names : ℕ → Option String) :
    ClsEffect → String × ℚ
  | ClsEffect.convertFailed => (det_name, det_conf)
  | ClsEffect.crashed => (det_name, det_conf)
  | ClsEffect.withProbs i c => ((cls_names i).getD det_name, c)
  | ClsEffect.noProbs (some c) => (det_name, c)
  | ClsEffect.noProbs none => (det_name, det_conf)

namespace YoloPipeline

/-- Processing of one raw detection inside the loop of `YoloPipeline.run`:
clamp, skip degenerate crops (`continue`), otherwise classify and emit the
detection entry. -/
def process_det (det_names cls_names : ℕ → Option String)
    (classify : ℤ × ℤ × ℤ × ℤ → ClsEffect) (w h : ℕ) (r : RawDet) :
    Option PipelineDet :=
  let x1c := clamp1 w r.x1
  let y1c := clamp1 h r.y1
  let x2c := clamp1 w r.x2
  let y2c := clamp1 h r.y2
  if x2c ≤ x1c ∨ y2c ≤ y1c then none
  else
    let det_name := (det_names r.cls_idx).getD ("class_" ++ toString r.cls_idx)
    let fc := final_label det_name r.conf cls_names (classify (x1c, y1c, x2c, y2c))
    some ⟨x1c, y1c, x2c, y2c, fc.1, pyRound 4 fc.2⟩

/-- The crops actually handed to the classification model: the loop reaches
`self.classification_model(pil_crop)` only for non-degenerate crops whose PIL
conversion succeeded. -/
def crop_classified (classify : ℤ × ℤ × ℤ × ℤ → ClsEffect) (w h : ℕ) (r : RawDet) :
    Option (ℤ × ℤ × ℤ × ℤ) :=
  let x1c := clamp1 w r.x1
  let y1c := clamp1 h r.y1
  let x2c := clamp1 w r.x2
  let y2c := clamp1 h r.y2
  if x2c ≤ x1c ∨ y2c ≤ y1c then none
  else if classify (x1c, y1c, x2c, y2c) = ClsEffect.convertFailed then none
  else some (x1c, y1c, x2c, y2c)

/-- Output of `YoloPipeline.run`: the `detections` list, plus the crops on
which the classification model was invoked (instrumentation for the
degenerate-crop contract). -/
structure RunOutput where
  detections : List PipelineDet
  classified_crops : List (ℤ × ℤ × ℤ × ℤ)

deriving DecidableEq, Repr

/-- Models `YoloPipeline.run`: the per-detection loop over the raw boxes. -/
def run (det_names cls_names : ℕ → Option String)
    (classify : ℤ × ℤ × ℤ × ℤ → ClsEffect) (w h : ℕ) (raw : List RawDet) : RunOutput :=
  { detections := raw.filterMap (process_det det_names cls_names classify w h)
    classified_crops := raw.filterMap (crop_classified classify w h) }

end YoloPipeline

/-- A raw detection whose crop still has positive width and height after
clamping. -/
def keeps_after_clamp (w h : ℕ) (r : RawDet) : Prop :=
  clamp1 w r.x1 < clamp1 w r.x2 ∧ clamp1 h r.y1 < clamp1 h r.y2

instance (w h : ℕ) (r : RawDet) : Decidable (keeps_after_clamp w h r) := by
  unfold keeps_after_clamp
  infer_instance

/-- One box dict of `inference_engine.py`:
`{"x1":..,"y1":..,"x2":..,"y2":..,"score":..,"class":..}`. -/
structure EngineBox where
  x1 : ℤ
  y1 : ℤ
  x2 : ℤ
  y2 : ℤ
  score : ℚ
  cls : String

deriving DecidableEq, Repr

/-- The `MODEL` global of `model_loader.py` as seen by
`run_inference_on_bytes`: its `type` string, whether `MODEL.model` is not
`None`, and its class-name mapping. -/
structure EngineModel where
  model_type : String
  has_model : Bool
  class_names : ℕ → Option String

/-- Models the lookup `MODEL.class_names.get(cls_idx, ...)` with the fallback for
a missing mapping. -/
def engine_class_name (names : ℕ → Option String) (i : ℕ) : String :=
  (names i).getD ("class" ++ toString i)

/-- The box-producing part of `run_inference_on_bytes`: when
`MODEL.type == "yolov8" and MODEL.model is not None` the external detector's
raw boxes are decoded; otherwise the random mock boxes of `_mock_boxes` are
used. Either way the function returns a normal result — the caller is never
given an error (the surrounding `except` even maps real-model failures to
the mock result). `real_raw` and `mock_boxes` stand for the external model
output and the random mock generation. -/
def run_inference_on_bytes (m : EngineModel) (real_raw : List RawDet)
    (mock_boxes : List EngineBox) : Except String (List EngineBox × ℕ) :=
  let boxes :=
    if m.model_type = "yolov8" ∧ m.has_model then
      real_raw.map (fun d =>
        ⟨d.x1, d.y1, d.x2, d.y2, d.conf, engine_class_name m.class_names d.cls_idx⟩)
    else mock_boxes
  Except.ok (boxes, boxes.length)

/-- Safety mapping hard-coded in `analyze_snapshot`:
`unsafe_classes = ["rotifer"]`, `caution_classes = ["algae"]`. -/
def live_safety (cname : String) : Safety :=
  if cname.toLower ∈ ["rotifer"] then Safety.Unsafe
  else if cname.toLower ∈ ["algae"] then Safety.Caution
  else Safety.Safe

/-- One row of `per_class` in `analyze_snapshot` (no description field). -/
structure LivePerClassRow where
  cls : String
  count : ℕ
  percentage : ℚ
  avg_confidence : ℚ
  safety : Safety

deriving DecidableEq, Repr, Inhabited

/-- The `per_class` list of `analyze_snapshot` before sorting. -/
def live_per_class_of (boxes : List Box) : List LivePerClassRow :=
  let count := boxes.length
  (counts_of boxes).map (fun e =>
    let cnt : ℕ := e.2.1
    let avg_conf : ℚ := if 0 < cnt then e.2.2 / (cnt : ℚ) else 0
    let percentage : ℚ :=
      if 0 < count then pyRound 1 ((cnt : ℚ) / (count : ℚ) * 100) else 0
    { cls := e.1, count := cnt, percentage := percentage,
      avg_confidence := pyRound 3 avg_conf, safety := live_safety e.1 })

/-- The sort key of `sorted(per_class, key=lambda x: (x['count'],
x['avg_confidence']), reverse=True)`: descending lexicographic order on the
pair, ties keeping the original (stable) order. -/
def live_count_conf_ge (a b : LivePerClassRow) : Prop :=
  b.count < a.count ∨ (a.count = b.count ∧ b.avg_confidence ≤ a.avg_confidence)

instance : DecidableRel live_count_conf_ge := fun a b => by
  unfold live_count_conf_ge
  infer_instance

/-- The sorted `per_class_sorted` list of `analyze_snapshot`. -/
def live_per_class_sorted (boxes : List Box) : List LivePerClassRow :=
  List.insertionSort live_count_conf_ge (live_per_class_of boxes)

/-- The response dict of `analyze_snapshot` (minus the snapshot id and
annotated-image path, which are external I/O). -/
structure SnapshotResponse where
  species : String
  meaning : String
  count : ℕ
  safe : Bool
  confidence : ℚ
  boxes : List Box
  per_class_stats : List LivePerClassRow

deriving DecidableEq, Repr

/-- Models `analyze_snapshot` after the image was read: when `detection_model is
None` it returns the "No Model" success payload (HTTP 200) rather than an
error; otherwise it aggregates the classified boxes and reports the primary
species. `boxes_info` stands for the boxes produced by the
detection/classification loop. -/
def analyze_snapshot (det_model_loaded : Bool) (boxes_info : List Box) :
    Except String SnapshotResponse :=
  if ¬ det_model_loaded then
    Except.ok ⟨"No Model", "YOLO detection model failed to load. Check backend logs.",
      0, true, 0, [], []⟩
  else
    let count := boxes_info.length
    let per_class_sorted := live_per_class_sorted boxes_info
    if count = 0 then
      Except.ok ⟨"None Detected", "No microorganisms detected in the image.",
        count, true, 0, boxes_info, per_class_sorted⟩
    else
      let primary := per_class_sorted.headI
      if primary.safety = Safety.Unsafe then
        Except.ok ⟨primary.cls,
          "⚠️ " ++ primary.cls ++ " is a high-risk organism. Immediate action recommended.",
          count, false, primary.avg_confidence, boxes_info, per_class_sorted⟩
      else if primary.safety = Safety.Caution then
        Except.ok ⟨primary.cls, "⚠️ " ++ primary.cls ++ " detected. Review recommended.",
          count, true, primary.avg_confidence, boxes_info, per_class_sorted⟩
      else
        Except.ok ⟨primary.cls, "✅ " ++ primary.cls ++ " detected. Safe to use.",
          count, true, primary.avg_confidence, boxes_info, per_class_sorted⟩

/-- The HTTP response of the `/analyze-image` route: status code and the
analysis payload. -/
structure RouteResponse where
  status : ℕ
  body : AnalysisResult

deriving DecidableEq, Repr

/-- The tail of `analyze_image` (`analyze_image.py` lines 30-67) after the
analysis result has been computed: the database insert is wrapped in
`try/except` — on failure a warning is printed and the same
`JSONResponse(result)` is returned. -/
def analyze_image (result : AnalysisResult) (db_insert : Except String ℕ) :
    RouteResponse :=
  match db_insert with
  | Except.ok _ => { status := 200, body := result }
  | Except.error _ => { status := 200, body := result }

/-- The fields of the inference result that `/predict` copies into its
response. -/
structure PredictData where
  total : ℕ
  species : List (String × ℕ × ℚ)
  summary : String
  counts : List (String × ℕ)

deriving DecidableEq, Repr

/-- The `/predict` response (step 8 of `predict.py`). -/
structure PredictResponse where
  status : ℕ
  analysis_id : ℕ
  total_count : ℕ
  species : List (String × ℕ × ℚ)
  summary : String
  annotated_image_url : String
  counts : List (String × ℕ)
  id_field : Option ℕ

deriving DecidableEq, Repr

/-- Steps 7-8 of `predict` (`predict.py` lines 154-187): the database insert
is best-effort; on failure `inserted_id` stays `None`, the response is built
regardless with status 200 and `analysis_id = inserted_id or 0`. -/
def predict_store (data : PredictData) (annotated_image_url : String)
    (db_insert : Except String ℕ) : PredictResponse :=
  let inserted_id : Option ℕ :=
    match db_insert with
    | Except.ok i => some i
    | Except.error _ => none
  { status := 200
    analysis_id := inserted_id.getD 0
    total_count := data.total
    species := data.species
    summary := data.summary
    annotated_image_url := annotated_image_url
    counts := data.counts
    id_field := inserted_id }

/-! ### JSON serialization of the counts dictionary (`db.py`)

`insert_detection` stores `json.dumps(record["counts"])` and `get_history`
reads it back with `json.loads`. The fragment of JSON that `counts` uses —
one object with string keys and integer values, `json.dumps`'s default
separators `", "` and `": "` — is modelled here. String escaping follows
`json.dumps` for the two-character escapes and control characters;
non-ASCII characters are emitted unescaped (the `ensure_ascii=False` form,
which `json.loads` decodes to the same dictionary). The decoder is the
restriction of `json.loads` to this grammar. -/
def digit_char (n : ℕ) : Char :=
  if n = 0 then '0' else if n = 1 then '1' else if n = 2 then '2'
  else if n = 3 then '3' else if n = 4 then '4' else if n = 5 then '5'
  else if n = 6 then '6' else if n = 7 then '7' else if n = 8 then '8' else '9'

def hex_char (n : ℕ) : Char :=
  if n = 10 then 'a' else if n = 11 then 'b' else if n = 12 then 'c'
  else if n = 13 then 'd' else if n = 14 then 'e' else if n = 15 then 'f'
  else digit_char n

def char_hex_val (c : Char) : Option ℕ :=
  if c = '0' then some 0 else if c = '1' then some 1
  else if c = '2' then some 2 else if c = '3' then some 3
  else if c = '4' then some 4 else if c = '5' then some 5
  else if c = '6' then some 6 else if c = '7' then some 7
  else if c = '8' then some 8 else if c = '9' then some 9
  else if c = 'a' then some 10 else if c = 'b' then some 11
  else if c = 'c' then some 12 else if c = 'd' then some 13
  else if c = 'e' then some 14 else if c = 'f' then some 15
  else none

/-- Decimal digits of a natural number, most significant first. -/
def nat_digits (n : ℕ) : List Char :=
  if h : n < 10 then [digit_char n]
  else nat_digits (n / 10) ++ [digit_char (n % 10)]
decreasing_by exact Nat.div_lt_self (by omega) (by norm_num)

/-- Python's `str`/`repr` of an `int`, as emitted by `json.dumps`. -/
def int_chars (v : ℤ) : List Char :=
  if v < 0 then '-' :: nat_digits (-v).toNat else nat_digits v.toNat

/-- The `json.dumps` escaping of one character inside a string literal. -/
def escape_char (c : Char) : List Char :=
  if c = '"' then ['\\', '"']
  else if c = '\\' then ['\\', '\\']
  else if c = '\n' then ['\\', 'n']
  else if c = '\t' then ['\\', 't']
  else if c = '\r' then ['\\', 'r']
  else if c = '\x08' then ['\\', 'b']
  else if c = '\x0c' then ['\\', 'f']
  else if c.toNat < 32 then
    ['\\', 'u', '0', '0', hex_char (c.toNat / 16), hex_char (c.toNat % 16)]
  else [c]

def escape_chars : List Char → List Char
  | [] => []
  | c :: cs => escape_char c ++ escape_chars cs

/-- One `"key": value` entry as `json.dumps` renders it. -/
def json_dumps_entry (k : String) (v : ℤ) : List Char :=
  '"' :: (escape_chars k.data ++ ['"', ':', ' '] ++ int_chars v)

/-- The `", "`-separated remaining entries. -/
def json_dumps_rest : List (String × ℤ) → List Char
  | [] => []
  | e :: es => ',' :: ' ' :: (json_dumps_entry e.1 e.2 ++ json_dumps_rest es)

/-- Models `json.dumps` of a string-keyed integer dictionary. -/
def json_dumps_counts (m : List (String × ℤ)) : String :=
  match m with
  | [] => String.mk ['\x7b', '\x7d']
  | e :: es =>
      String.mk ('\x7b' :: ((json_dumps_entry e.1 e.2 ++ json_dumps_rest es) ++ ['\x7d']))

def parse_digits_aux (acc : ℕ) : List Char → ℕ × List Char
  | [] => (acc, [])
  | c :: cs =>
      if c.isDigit then parse_digits_aux (10 * acc + (c.toNat - 48)) cs
      else (acc, c :: cs)

def parse_nat : List Char → Option (ℕ × List Char)
  | [] => none
  | c :: cs => if c.isDigit then some (parse_digits_aux (c.toNat - 48) cs) else none

def parse_int (l : List Char) : Option (ℤ × List Char) :=
  match l with
  | [] => none
  | c :: cs =>
      if c = '-' then (parse_nat cs).map (fun p => (-(p.1 : ℤ), p.2))
      else (parse_nat (c :: cs)).map (fun p => ((p.1 : ℤ), p.2))

/-- Body of a JSON string literal after the opening quote, undoing
`escape_char`. -/
def parse_str_body : List Char → Option (List Char × List Char)
  | [] => none
  | c :: cs =>
      if c = '"' then some ([], cs)
      else if c = '\\' then
        match cs with
        | [] => none
        | e :: rest =>
            if e = '"' then (parse_str_body rest).map (fun p => ('"' :: p.1, p.2))
            else if e = '\\' then (parse_str_body rest).map (fun p => ('\\' :: p.1, p.2))
            else if e = 'n' then (parse_str_body rest).map (fun p => ('\n' :: p.1, p.2))
            else if e = 't' then (parse_str_body rest).map (fun p => ('\t' :: p.1, p.2))
            else if e = 'r' then (parse_str_body rest).map (fun p => ('\r' :: p.1, p.2))
            else if e = 'b' then (parse_str_body rest).map (fun p => ('\x08' :: p.1, p.2))
            else if e = 'f' then (parse_str_body rest).map (fun p => ('\x0c' :: p.1, p.2))
            else if e = 'u' then
              match rest with
              | a :: b :: c2 :: d :: rest2 =>
                  match char_hex_val a, char_hex_val b, char_hex_val c2, char_hex_val d with
                  | some ha, some hb, some hc, some hd =>
                      (parse_str_body rest2).map (fun p =>
                        (Char.ofNat (4096 * ha + 256 * hb + 16 * hc + hd) :: p.1, p.2))
                  | _, _, _, _ => none
              | _ => none
            else none
      else (parse_str_body cs).map (fun p => (c :: p.1, p.2))

def parse_entry (l : List Char) : Option ((String × ℤ) × List Char) :=
  match l with
  | [] => none
  | c :: cs =>
      if c = '"' then
        match parse_str_body cs with
        | some (kcs, r1) =>
            match r1 with
            | ':' :: ' ' :: r2 => (parse_int r2).map (fun p => ((String.mk kcs, p.1), p.2))
            | _ => none
        | none => none
      else none

def parse_entries_rest : ℕ → List Char → Option (List (String × ℤ) × List Char)
  | _, [] => none
  | fuel, c :: cs =>
      if c = '\x7d' then some ([], cs)
      else if c = ',' then
        match cs with
        | ' ' :: cs2 =>
            match fuel with
            | 0 => none
            | fuel' + 1 =>
                match parse_entry cs2 with
                | some (e, r) => (parse_entries_rest fuel' r).map (fun p => (e :: p.1, p.2))
                | none => none
        | _ => none
      else none

/-- One JSON object of the counts grammar: `{}`, or `{` followed by a first
entry and the `", "`-separated rest up to `}`. -/
def parse_obj (fuel : ℕ) (l : List Char) : Option (List (String × ℤ) × List Char) :=
  match l with
  | [] => none
  | c :: cs =>
      if c = '\x7b' then
        match cs with
        | [] => none
        | d :: _ =>
            if d = '\x7d' then some ([], cs.tail)
            else
              match parse_entry cs with
              | some (e, r) => (parse_entries_rest fuel r).map (fun p => (e :: p.1, p.2))
              | none => none
      else none

/-- Models `json.loads` restricted to the object grammar that `json_dumps_counts`
emits; the whole input must be consumed. -/
def json_loads_counts (s : String) : Option (List (String × ℤ)) :=
  match parse_obj s.length s.data with
  | some (m, []) => some m
  | _ => none

/-- The next character, if any, is not a digit (so maximal-munch integer
parsing stops exactly there). -/
def no_digit_head : List Char → Prop
  | [] => True
  | c :: _ => c.isDigit = false

/-- Models the `record` dict handed to `insert_detection`. -/
structure DbRecord where
  timestamp : ℤ
  image_path : Option String
  counts : List (String × ℤ)
  total : ℕ
  dominant : Option String
  quality : Option String
  confidence : ℚ

deriving DecidableEq, Repr

/-- Models one row of the `detections` table. -/
structure DbRow where
  row_id : ℕ
  timestamp : ℤ
  image_path : Option String
  counts_json : String
  total : ℕ
  dominant : Option String
  quality : Option String
  confidence : String

deriving DecidableEq, Repr

/-- Models `insert_detection`: serialize the counts dict with `json.dumps`,
stringify the confidence, append the row, and return the new primary key
(modelled as one more than the current row count). -/
def inserted_row (table : List DbRow) (record : DbRecord) : DbRow :=
  { row_id := table.length + 1
    timestamp := record.timestamp
    image_path := record.image_path
    counts_json := json_dumps_counts record.counts
    total := record.total
    dominant := record.dominant
    quality := record.quality
    confidence := toString record.confidence }

def insert_detection (table : List DbRow) (record : DbRecord) : ℕ × List DbRow :=
  (table.length + 1, table ++ [inserted_row table record])

/-- Models one entry of the list returned by `get_history` (the derived
`image_url` and the constant `preds` field are omitted). -/
structure HistoryEntry where
  entry_id : ℕ
  timestamp : ℤ
  counts : List (String × ℤ)
  total : ℕ
  dominant : Option String
  quality : Option String
  confidence : String
  summary : String

deriving DecidableEq, Repr

/-- Builds one history entry from a row, parsing the stored counts JSON
(`json.loads(row["counts_json"]) if row["counts_json"] else {}`; a parse
failure, impossible for rows written by `insert_detection`, maps to the
empty dict). -/
def row_to_entry (row : DbRow) : HistoryEntry :=
  { entry_id := row.row_id, timestamp := row.timestamp,
    counts := if row.counts_json = "" then []
      else (json_loads_counts row.counts_json).getD [],
    total := row.total, dominant := row.dominant, quality := row.quality,
    confidence := row.confidence,
    summary := "Detected " ++ toString row.total ++ " organisms" }

/-- Sort key of `ORDER BY timestamp DESC`. -/
def ts_desc (a b : DbRow) : Prop := b.timestamp ≤ a.timestamp

instance : DecidableRel ts_desc := fun a b => Int.decLe _ _

/-- Models `get_history`: most recent first, at most `limit` rows, each
mapped to an entry. -/
def get_history (table : List DbRow) (limit : ℕ) : List HistoryEntry :=
  ((List.insertionSort ts_desc table).take limit).map row_to_entry

/-! ### Concrete inputs used by witnesses and counterexamples -/
def mk_box (c : String) (conf : ℚ) : Box := ⟨0, 0, 1, 1, conf, c⟩

def c2_boxes : List Box :=
  [mk_box "a" 1, mk_box "b" 1, mk_box "c" 1, mk_box "d" 1, mk_box "e" 1, mk_box "f" 1]

def c2w_boxes : List Box := [mk_box "algae" (9/10), mk_box "algae" (4/5)]

def c7_boxes : List Box := [mk_box "a" (1/2), mk_box "b" (9/10)]

/-- The property the spec claims of the sorted per-class rows: earlier rows
have strictly greater count, or equal count and average confidence at least
as high. -/
def claimed_sort_ok (rows : List PerClassRow) : Prop :=
  rows.Pairwise (fun a b =>
    b.count < a.count ∨ (a.count = b.count ∧ b.avg_confidence ≤ a.avg_confidence))

instance (rows : List PerClassRow) : Decidable (claimed_sort_ok rows) := by
  unfold claimed_sort_ok
  exact List.instDecidablePairwise rows

def no_names : ℕ → Option String := fun _ => none

def crash_classify : ℤ × ℤ × ℤ × ℤ → ClsEffect := fun _ => ClsEffect.crashed

def deg_raw : RawDet := ⟨5, 5, 5, 8, 0, 1/2⟩

def c8_raw : RawDet := ⟨2, 3, 7, 8, 1, 1/2⟩

def c8_det : PipelineDet := ⟨2, 3, 7, 8, "class_1", 1/2⟩

def c5_raw1 : RawDet := ⟨0, 0, 4, 4, 0, 3/4⟩

def c5_raw2 : RawDet := ⟨4, 4, 8, 8, 1, 1/2⟩

def c5_cls_names : ℕ → Option String := fun i => if i = 0 then some "refined" else none

def c5_classify : ℤ × ℤ × ℤ × ℤ → ClsEffect :=
  fun rect => if rect = (0, 0, 4, 4) then ClsEffect.crashed else ClsEffect.withProbs 0 (9/10)

def c5_det : PipelineDet := ⟨0, 0, 4, 4, "class_0", 3/4⟩

def no_model_engine : EngineModel := ⟨"mock", false, fun _ => none⟩

def c3_mock_box : EngineBox := ⟨1, 2, 3, 4, 7/10, "algae"⟩

def c10_record : DbRecord :=
  ⟨0, none, [("diatom", 3), ("algae", 1)], 4, some "diatom", some "Good", 9/10⟩

instance : IsTotal PerClassRow count_ge := ⟨fun a b => Nat.le_total b.count a.count⟩

instance : IsTrans PerClassRow count_ge := ⟨fun _ _ _ hab hbc => le_trans hbc hab⟩

instance : IsTotal LivePerClassRow live_count_conf_ge :=
  ⟨fun a b => by
    unfold live_count_conf_ge
    rcases lt_trichotomy a.count b.count with h | h | h
    · exact Or.inr (Or.inl h)
    · rcases le_total b.avg_confidence a.avg_confidence with hc | hc
      · exact Or.inl (Or.inr ⟨h, hc⟩)
      · exact Or.inr (Or.inr ⟨h.symm, hc⟩)
    · exact Or.inl (Or.inl h)⟩

instance : IsTrans LivePerClassRow live_count_conf_ge :=
  ⟨fun a b c hab hbc => by
    unfold live_count_conf_ge at hab hbc ⊢
    rcases hab with h1 | ⟨h1, h2⟩ <;> rcases hbc with h3 | ⟨h3, h4⟩
    · exact Or.inl (by omega)
    · exact Or.inl (by omega)
    · exact Or.inl (by omega)
    · exact Or.inr ⟨by omega, le_trans h4 h2⟩⟩

/-! ### Claim theorems -/
attribute [local semireducible] Rat.mul Rat.add Rat.inv Rat.sub

theorem rat_floor_eq (q : ℚ) : rat_floor q = ⌊q⌋ := Rat.floor_def.symm

/-- A rounded value is within one half of the original. -/
theorem abs_rhe_sub_le (q : ℚ) : |(rhe q : ℚ) - q| ≤ 1/2 := by
  have h1 : ((⌊q⌋ : ℤ) : ℚ) ≤ q := Int.floor_le q
  have h2 : q < ((⌊q⌋ : ℤ) : ℚ) + 1 := Int.lt_floor_add_one q
  unfold rhe
  rw [rat_floor_eq]
  split_ifs with hlt hgt hev <;> rw [abs_le] <;> constructor <;> push_cast <;> linarith

/-- The value `pyRound d q` is within `1 / (2 * 10 ^ d)` of `q`. -/
theorem abs_pyRound_sub_le (d : ℕ) (q : ℚ) :
    |pyRound d q - q| ≤ 1 / (2 * 10 ^ d) := by
  have hp : (0 : ℚ) < 10 ^ d := by positivity
  have h := abs_rhe_sub_le (q * 10 ^ d)
  have hq : pyRound d q - q = ((rhe (q * 10 ^ d) : ℚ) - q * 10 ^ d) / 10 ^ d := by
    field_simp [pyRound]
    ring
  rw [hq, abs_div, abs_of_pos hp, div_le_div_iff₀ hp (by positivity)]
  calc |(rhe (q * 10 ^ d) : ℚ) - q * 10 ^ d| * (2 * 10 ^ d)
      ≤ (1/2) * (2 * 10 ^ d) := by
        apply mul_le_mul_of_nonneg_right h (by positivity)
    _ = 1 * 10 ^ d := by ring

/-! ### Characterization of the aggregation fold -/
theorem distinct_labels_append (l : List Box) (b : Box) :
    distinct_labels (l ++ [b]) =
      if b.cls ∈ distinct_labels l then distinct_labels l
      else distinct_labels l ++ [b.cls] := by
  simp [distinct_labels, List.foldl_append]

theorem counts_of_append (l : List Box) (b : Box) :
    counts_of (l ++ [b]) = update_counts (counts_of l) b := by
  simp [counts_of, List.foldl_append]

theorem mem_foldl_distinct (l : List Box) (acc : List String) (c : String) :
    c ∈ l.foldl (fun acc b => if b.cls ∈ acc then acc else acc ++ [b.cls]) acc ↔
      c ∈ acc ∨ ∃ b ∈ l, b.cls = c := by
  induction l generalizing acc with
  | nil => simp
  | cons b l ih =>
      simp only [List.foldl_cons, ih]
      constructor
      · rintro (hc | hb)
        · by_cases hm : b.cls ∈ acc
          · simp only [if_pos hm] at hc
            exact Or.inl hc
          · simp only [if_neg hm, List.mem_append, List.mem_singleton] at hc
            rcases hc with hc | hc
            · exact Or.inl hc
            · exact Or.inr ⟨b, by simp [hc]⟩
        · obtain ⟨x, hx, hxc⟩ := hb
          exact Or.inr ⟨x, by simp [hx], hxc⟩
      · rintro (hc | ⟨x, hx, hxc⟩)
        · left
          by_cases hm : b.cls ∈ acc
          · simpa [if_pos hm] using hc
          · simp [if_neg hm, hc]
        · rcases List.mem_cons.mp hx with rfl | hx
          · left
            by_cases hm : x.cls ∈ acc
            · simp [if_pos hm, hxc ▸ hm]
            · rw [if_neg hm]
              simp [hxc]
          · exact Or.inr ⟨x, hx, hxc⟩

theorem mem_distinct_labels (l : List Box) (c : String) :
    c ∈ distinct_labels l ↔ ∃ b ∈ l, b.cls = c := by
  simpa using mem_foldl_distinct l [] c

theorem nodup_foldl_distinct (l : List Box) (acc : List String) (h : acc.Nodup) :
    (l.foldl (fun acc b => if b.cls ∈ acc then acc else acc ++ [b.cls]) acc).Nodup := by
  induction l generalizing acc with
  | nil => exact h
  | cons b l ih =>
      simp only [List.foldl_cons]
      apply ih
      by_cases hm : b.cls ∈ acc
      · simpa [if_pos hm] using h
      · rw [if_neg hm]
        simp [List.nodup_append, h, hm]

theorem nodup_distinct_labels (l : List Box) : (distinct_labels l).Nodup :=
  nodup_foldl_distinct l [] List.nodup_nil

theorem label_count_append (c : String) (l : List Box) (b : Box) :
    label_count c (l ++ [b]) = label_count c l + (if b.cls = c then 1 else 0) := by
  simp only [label_count, List.filter_append]
  by_cases h : b.cls = c <;> simp [h]

theorem label_conf_sum_append (c : String) (l : List Box) (b : Box) :
    label_conf_sum c (l ++ [b]) =
      label_conf_sum c l + (if b.cls = c then b.confidence else 0) := by
  simp only [label_conf_sum, List.filter_append]
  by_cases h : b.cls = c <;> simp [h]

theorem label_count_eq_zero (c : String) (l : List Box) (h : c ∉ distinct_labels l) :
    label_count c l = 0 := by
  rw [mem_distinct_labels] at h
  push_neg at h
  simp only [label_count, List.length_eq_zero, List.filter_eq_nil]
  intro b hb
  simpa using h b hb

theorem label_conf_sum_eq_zero (c : String) (l : List Box) (h : c ∉ distinct_labels l) :
    label_conf_sum c l = 0 := by
  rw [mem_distinct_labels] at h
  push_neg at h
  have : l.filter (fun b => b.cls = c) = [] := by
    rw [List.filter_eq_nil]
    intro b hb
    simpa using h b hb
  simp [label_conf_sum, this]

theorem update_counts_of_not_mem (acc : List (String × ℕ × ℚ)) (b : Box)
    (h : ∀ e ∈ acc, e.1 ≠ b.cls) :
    update_counts acc b = acc ++ [(b.cls, 1, b.confidence)] := by
  induction acc with
  | nil => rfl
  | cons e rest ih =>
      have he : e.1 ≠ b.cls := h e (by simp)
      simp only [update_counts, if_neg he, List.cons_append, List.cons.injEq, true_and]
      exact ih fun x hx => h x (by simp [hx])

theorem update_counts_of_mem (labels : List String) (g : String → ℕ × ℚ) (b : Box)
    (hnd : labels.Nodup) (hmem : b.cls ∈ labels) :
    update_counts (labels.map (fun c => (c, g c))) b =
      labels.map (fun c =>
        if c = b.cls then (c, (g c).1 + 1, (g c).2 + b.confidence) else (c, g c)) := by
  induction labels with
  | nil => simp at hmem
  | cons c cs ih =>
      rcases List.mem_cons.mp hmem with rfl | hmem'
      · have hnotin : b.cls ∉ cs := (List.nodup_cons.mp hnd).1
        have hmap : List.map (fun c =>
              if c = b.cls then (c, (g c).1 + 1, (g c).2 + b.confidence) else (c, g c)) cs =
            List.map (fun c => (c, g c)) cs := by
          refine List.map_congr_left ?_
          intro x hx
          have hxne : x ≠ b.cls := fun hEq => hnotin (hEq ▸ hx)
          simp [hxne]
        simp [update_counts, hmap]
      · have hne : c ≠ b.cls := by
          rintro rfl
          exact (List.nodup_cons.mp hnd).1 hmem'
        simp only [List.map_cons, update_counts, if_neg hne]
        rw [ih (List.nodup_cons.mp hnd).2 hmem']

/-- The aggregation fold of `analyze_image_bytes` computes, for each distinct
label in first-occurrence order, the number of detections with that label and
the sum of their confidences. -/
theorem counts_of_eq (l : List Box) :
    counts_of l =
      (distinct_labels l).map (fun c => (c, label_count c l, label_conf_sum c l)) := by
  induction l using List.reverseRecOn with
  | nil => rfl
  | append_singleton l b ih =>
      rw [counts_of_append, ih, distinct_labels_append]
      by_cases hmem : b.cls ∈ distinct_labels l
      · rw [if_pos hmem]
        rw [update_counts_of_mem (distinct_labels l)
            (fun c => (label_count c l, label_conf_sum c l)) b
            (nodup_distinct_labels l) hmem]
        refine List.map_congr_left ?_
        intro c hc
        rw [label_count_append, label_conf_sum_append]
        by_cases hEq : c = b.cls
        · simp [hEq]
        · have : b.cls ≠ c := fun h => hEq h.symm
          simp [hEq, this]
      · rw [if_neg hmem]
        rw [update_counts_of_not_mem]
        · rw [List.map_append]
          congr 1
          · refine List.map_congr_left ?_
            intro c hc
            have hne : b.cls ≠ c := by
              rintro rfl
              exact hmem hc
            rw [label_count_append, label_conf_sum_append, if_neg hne, if_neg hne]
            simp
          · simp only [List.map_cons, List.map_nil]
            rw [label_count_append, label_conf_sum_append, if_pos rfl, if_pos rfl]
            rw [label_count_eq_zero _ _ hmem, label_conf_sum_eq_zero _ _ hmem]
            simp
        · intro e he
          simp only [List.mem_map] at he
          obtain ⟨c, hc, rfl⟩ := he
          rintro rfl
          exact hmem hc

theorem sum_counts_update (acc : List (String × ℕ × ℚ)) (b : Box) :
    sum_counts (update_counts acc b) = sum_counts acc + 1 := by
  induction acc with
  | nil => rfl
  | cons e rest ih =>
      by_cases h : e.1 = b.cls
      · simp [update_counts, if_pos h, sum_counts]
        ring
      · simp only [update_counts, if_neg h, sum_counts, List.map_cons, List.sum_cons] at *
        rw [ih]
        ring

theorem sum_counts_counts_of (l : List Box) : sum_counts (counts_of l) = l.length := by
  suffices h : ∀ acc, sum_counts (List.foldl update_counts acc l) = sum_counts acc + l.length by
    simpa [counts_of, sum_counts] using h []
  induction l with
  | nil => simp
  | cons b rest ih =>
      intro acc
      simp only [List.foldl_cons, List.length_cons, ih, sum_counts_update]
      ring

theorem per_class_of_eq (l : List Box) :
    per_class_of l = (distinct_labels l).map (row_of l) := by
  rw [per_class_of, counts_of_eq, List.map_map]
  rfl

theorem filter_safety_per_class (l : List Box) (s : Safety) :
    (per_class_of l).filter (fun p => p.safety = s) =
      ((distinct_labels l).filter (fun c => safety_get c = s)).map (row_of l) := by
  rw [per_class_of_eq, List.filter_map]
  congr 1

theorem row_of_percentage (l : List Box) (c : String) (hc : c ∈ distinct_labels l) :
    (row_of l c).percentage = pyRound 1 ((label_count c l : ℚ) / (l.length : ℚ) * 100) := by
  obtain ⟨b, hb, -⟩ := (mem_distinct_labels l c).mp hc
  have hlen : 0 < l.length := List.length_pos_of_mem hb
  simp [row_of, if_pos hlen]

/-- The overall verdict computed by `analyze_image_bytes` agrees with the
spec's escalation rule stated over distinct class labels. -/
theorem overall_verdict_of_eq_spec (l : List Box) :
    (overall_verdict_of l).verdict = verdict_spec l := by
  have hperm : List.Perm (per_class_sorted l) (per_class_of l) := List.perm_insertionSort _ _
  have hUperm : List.Perm ((per_class_sorted l).filter (fun p => p.safety = Safety.Unsafe))
      (((distinct_labels l).filter (fun c => safety_get c = Safety.Unsafe)).map (row_of l)) := by
    have h1 := hperm.filter (fun p => p.safety = Safety.Unsafe)
    rwa [filter_safety_per_class l Safety.Unsafe] at h1
  have hCperm : List.Perm ((per_class_sorted l).filter (fun p => p.safety = Safety.Caution))
      (((distinct_labels l).filter (fun c => safety_get c = Safety.Caution)).map (row_of l)) := by
    have h1 := hperm.filter (fun p => p.safety = Safety.Caution)
    rwa [filter_safety_per_class l Safety.Caution] at h1
  have hUlen : ((per_class_sorted l).filter (fun p => p.safety = Safety.Unsafe)).length =
      ((distinct_labels l).filter (fun c => safety_get c = Safety.Unsafe)).length := by
    rw [hUperm.length_eq, List.length_map]
  have hUex : (∃ p ∈ (per_class_sorted l).filter (fun p => p.safety = Safety.Unsafe),
        20 < p.percentage) ↔
      ∃ c ∈ (distinct_labels l).filter (fun c => safety_get c = Safety.Unsafe),
        20 < pyRound 1 ((label_count c l : ℚ) / (l.length : ℚ) * 100) := by
    constructor
    · rintro ⟨p, hp, h20⟩
      have hp' := hUperm.mem_iff.mp hp
      obtain ⟨c, hc, rfl⟩ := List.mem_map.mp hp'
      have hcl : c ∈ distinct_labels l := (List.mem_filter.mp hc).1
      exact ⟨c, hc, by rwa [row_of_percentage l c hcl] at h20⟩
    · rintro ⟨c, hc, h20⟩
      have hcl : c ∈ distinct_labels l := (List.mem_filter.mp hc).1
      refine ⟨row_of l c, hUperm.mem_iff.mpr (List.mem_map_of_mem _ hc), ?_⟩
      rwa [row_of_percentage l c hcl]
  have hCpos : (0 < ((per_class_sorted l).filter (fun p => p.safety = Safety.Caution)).length) ↔
      ∃ c ∈ distinct_labels l, safety_get c = Safety.Caution := by
    rw [hCperm.length_eq, List.length_map]
    constructor
    · intro h
      obtain ⟨c, hc⟩ := List.exists_mem_of_length_pos h
      refine ⟨c, (List.mem_filter.mp hc).1, ?_⟩
      simpa using (List.mem_filter.mp hc).2
    · rintro ⟨c, hc, hs⟩
      exact List.length_pos_of_mem (List.mem_filter.mpr ⟨hc, by simpa using hs⟩)
  have hAiff : (1 < ((per_class_sorted l).filter (fun p => p.safety = Safety.Unsafe)).length ∨
      ∃ p ∈ (per_class_sorted l).filter (fun p => p.safety = Safety.Unsafe), 20 < p.percentage) ↔
      (1 < ((distinct_labels l).filter (fun c => safety_get c = Safety.Unsafe)).length ∨
      ∃ c ∈ (distinct_labels l).filter (fun c => safety_get c = Safety.Unsafe),
        20 < pyRound 1 ((label_count c l : ℚ) / (l.length : ℚ) * 100)) := by
    rw [← hUlen]
    exact or_congr Iff.rfl hUex
  simp only [overall_verdict_of, verdict_spec]
  by_cases hA : 1 < ((per_class_sorted l).filter (fun p => p.safety = Safety.Unsafe)).length ∨
      ∃ p ∈ (per_class_sorted l).filter (fun p => p.safety = Safety.Unsafe), 20 < p.percentage
  · rw [if_pos hA, if_pos (hAiff.mp hA)]
  · rw [if_neg hA, if_neg (fun h => hA (hAiff.mpr h))]
    by_cases hB : 0 < ((per_class_sorted l).filter (fun p => p.safety = Safety.Caution)).length
    · rw [if_pos hB, if_pos (hCpos.mp hB)]
    · rw [if_neg hB, if_neg (fun h => hB (hCpos.mpr h))]

/-! ### Per-class percentages and their sum -/
theorem label_count_pos (l : List Box) (c : String) (hc : c ∈ distinct_labels l) :
    0 < label_count c l := by
  obtain ⟨b, hb, hbc⟩ := (mem_distinct_labels l c).mp hc
  exact List.length_pos_of_mem (List.mem_filter.mpr ⟨hb, by simpa using hbc⟩)

/-- Every row of the analysis result carries the class's detection count, the
rounded percentage of that count, and the rounded mean confidence. -/
theorem mem_per_class_formulas (l : List Box) (p : PerClassRow)
    (hp : p ∈ (analyze_result l).per_class) :
    p.count = label_count p.cls l ∧
    p.percentage =
      (if 0 < l.length then pyRound 1 ((label_count p.cls l : ℚ) / (l.length : ℚ) * 100)
       else 0) ∧
    p.avg_confidence = pyRound 3 (label_conf_sum p.cls l / (label_count p.cls l : ℚ)) := by
  have hp' : p ∈ per_class_of l :=
    (List.perm_insertionSort count_ge (per_class_of l)).mem_iff.mp hp
  rw [per_class_of_eq] at hp'
  obtain ⟨c, hc, rfl⟩ := List.mem_map.mp hp'
  have hpos := label_count_pos l c hc
  refine ⟨rfl, rfl, ?_⟩
  simp [row_of, if_pos hpos]

theorem sum_label_count (l : List Box) :
    ((distinct_labels l).map (fun c => label_count c l)).sum = l.length := by
  have h := sum_counts_counts_of l
  rw [counts_of_eq] at h
  simpa [sum_counts, List.map_map, Function.comp] using h

/-- Summing `pyRound 1` over a list moves the total by at most `1/20` per
element. -/
theorem abs_sum_pyRound_sub_le (xs : List ℚ) :
    |(xs.map (pyRound 1)).sum - xs.sum| ≤ (xs.length : ℚ) * (1/20) := by
  induction xs with
  | nil => simp
  | cons x xs ih =>
      simp only [List.map_cons, List.sum_cons, List.length_cons]
      have h1 := abs_pyRound_sub_le 1 x
      have h1' : |pyRound 1 x - x| ≤ 1/20 := by
        have : (1:ℚ) / (2 * 10 ^ 1) = 1/20 := by norm_num
        rwa [this] at h1
      calc |pyRound 1 x + (xs.map (pyRound 1)).sum - (x + xs.sum)|
          = |(pyRound 1 x - x) + ((xs.map (pyRound 1)).sum - xs.sum)| := by ring_nf
        _ ≤ |pyRound 1 x - x| + |(xs.map (pyRound 1)).sum - xs.sum| := abs_add _ _
        _ ≤ 1/20 + (xs.length : ℚ) * (1/20) := add_le_add h1' ih
        _ = ((xs.length + 1 : ℕ) : ℚ) * (1/20) := by push_cast; ring

theorem per_class_percentages_eq (l : List Box) (h : 0 < l.length) :
    (per_class_of l).map PerClassRow.percentage =
      ((distinct_labels l).map
        (fun c => ((label_count c l : ℚ) / (l.length : ℚ) * 100))).map (pyRound 1) := by
  rw [per_class_of_eq, List.map_map, List.map_map]
  refine List.map_congr_left ?_
  intro c hc
  simp only [Function.comp]
  exact row_of_percentage l c hc

theorem sum_raw_percentages (l : List Box) (h : 0 < l.length) :
    ((distinct_labels l).map
      (fun c => ((label_count c l : ℚ) / (l.length : ℚ) * 100))).sum = 100 := by
  have hne : ((l.length : ℚ)) ≠ 0 := by
    exact_mod_cast Nat.pos_iff_ne_zero.mp h
  have hmul : ∀ c : String,
      ((label_count c l : ℚ) / (l.length : ℚ) * 100) =
        (fun c => (label_count c l : ℚ)) c * (100 / (l.length : ℚ)) := by
    intro c
    field_simp
  calc ((distinct_labels l).map
          (fun c => ((label_count c l : ℚ) / (l.length : ℚ) * 100))).sum
      = ((distinct_labels l).map
          (fun c => (fun c => (label_count c l : ℚ)) c * (100 / (l.length : ℚ)))).sum := by
        rw [List.map_congr_left fun c _ => hmul c]
    _ = ((distinct_labels l).map (fun c => (label_count c l : ℚ))).sum *
          (100 / (l.length : ℚ)) := List.sum_map_mul_right _ _ _
    _ = ((l.length : ℚ)) * (100 / (l.length : ℚ)) := by
        congr 1
        rw [← sum_label_count l]
        rw [Nat.cast_list_sum, List.map_map]
        rfl
    _ = 100 := by field_simp

/-- The sum of the per-class percentages differs from 100 by at most `1/20`
per distinct class. -/
theorem per_class_percentage_sum_bound (l : List Box) (h : 0 < l.length) :
    |((analyze_result l).per_class.map PerClassRow.percentage).sum - 100| ≤
      ((analyze_result l).per_class.length : ℚ) * (1/20) := by
  have hperm : List.Perm ((analyze_result l).per_class) (per_class_of l) :=
    List.perm_insertionSort _ _
  have hsum : ((analyze_result l).per_class.map PerClassRow.percentage).sum =
      ((per_class_of l).map PerClassRow.percentage).sum :=
    (hperm.map PerClassRow.percentage).sum_eq
  have hlen : (analyze_result l).per_class.length = (distinct_labels l).length := by
    rw [hperm.length_eq, per_class_of_eq, List.length_map]
  rw [hsum, hlen, per_class_percentages_eq l h]
  have hbound := abs_sum_pyRound_sub_le
    ((distinct_labels l).map (fun c => ((label_count c l : ℚ) / (l.length : ℚ) * 100)))
  rw [sum_raw_percentages l h] at hbound
  simpa using hbound

theorem clamp1_nonneg (b : ℕ) (v : ℤ) : 0 ≤ clamp1 b v := le_max_left _ _

theorem clamp1_zero_or_le (b : ℕ) (v : ℤ) :
    clamp1 b v = 0 ∨ clamp1 b v ≤ (b : ℤ) - 1 := by
  unfold clamp1
  rcases le_total (min ((b : ℤ) - 1) v) 0 with h | h
  · left
    exact max_eq_left h
  · right
    rw [max_eq_right h]
    exact min_le_left _ _

theorem clamp1_le_of_pos (b : ℕ) (v : ℤ) (hpos : 0 < clamp1 b v) :
    clamp1 b v ≤ (b : ℤ) := by
  rcases clamp1_zero_or_le b v with h0 | hle
  · rw [h0] at hpos
    exact absurd hpos (lt_irrefl 0)
  · linarith

theorem degenerate_iff (w h : ℕ) (r : RawDet) :
    (clamp1 w r.x2 ≤ clamp1 w r.x1 ∨ clamp1 h r.y2 ≤ clamp1 h r.y1) ↔
      ¬ keeps_after_clamp w h r := by
  simp only [keeps_after_clamp, not_and_or, not_lt]

theorem process_det_of_not_keeps (dn cn : ℕ → Option String)
    (cl : ℤ × ℤ × ℤ × ℤ → ClsEffect) (w h : ℕ) (r : RawDet)
    (hk : ¬ keeps_after_clamp w h r) :
    YoloPipeline.process_det dn cn cl w h r = none := by
  unfold YoloPipeline.process_det
  rw [if_pos ((degenerate_iff w h r).mpr hk)]

theorem process_det_of_keeps (dn cn : ℕ → Option String)
    (cl : ℤ × ℤ × ℤ × ℤ → ClsEffect) (w h : ℕ) (r : RawDet)
    (hk : keeps_after_clamp w h r) :
    YoloPipeline.process_det dn cn cl w h r =
      some ⟨clamp1 w r.x1, clamp1 h r.y1, clamp1 w r.x2, clamp1 h r.y2,
        (final_label ((dn r.cls_idx).getD ("class_" ++ toString r.cls_idx)) r.conf cn
          (cl (clamp_box w h r))).1,
        pyRound 4 (final_label ((dn r.cls_idx).getD ("class_" ++ toString r.cls_idx)) r.conf cn
          (cl (clamp_box w h r))).2⟩ := by
  unfold YoloPipeline.process_det
  rw [if_neg (fun hc => ((degenerate_iff w h r).mp hc) hk)]
  rfl

theorem process_det_isSome (dn cn : ℕ → Option String)
    (cl : ℤ × ℤ × ℤ × ℤ → ClsEffect) (w h : ℕ) (r : RawDet) :
    (YoloPipeline.process_det dn cn cl w h r).isSome =
      decide (keeps_after_clamp w h r) := by
  by_cases hk : keeps_after_clamp w h r
  · rw [process_det_of_keeps dn cn cl w h r hk]
    simp [hk]
  · rw [process_det_of_not_keeps dn cn cl w h r hk]
    simp [hk]

theorem length_filterMap_eq_filter {α β : Type} (f : α → Option β) (p : α → Bool)
    (hfp : ∀ a, (f a).isSome = p a) (l : List α) :
    (l.filterMap f).length = (l.filter p).length := by
  induction l with
  | nil => rfl
  | cons a l ih =>
      rw [List.filterMap_cons, List.filter_cons]
      cases hfa : f a with
      | none =>
          have hp : p a = false := by rw [← hfp a, hfa]; rfl
          simp [hp, ih]
      | some b =>
          have hp : p a = true := by rw [← hfp a, hfa]; rfl
          simp [hp, ih]

/-- Every detection in the pipeline output has clamped in-bounds coordinates
with positive width and height. -/
theorem run_detections_bounds (dn cn : ℕ → Option String)
    (cl : ℤ × ℤ × ℤ × ℤ → ClsEffect) (w h : ℕ) (raw : List RawDet)
    (d : PipelineDet) (hd : d ∈ (YoloPipeline.run dn cn cl w h raw).detections) :
    0 ≤ d.x1 ∧ d.x1 < d.x2 ∧ d.x2 ≤ (w : ℤ) ∧
    0 ≤ d.y1 ∧ d.y1 < d.y2 ∧ d.y2 ≤ (h : ℤ) := by
  obtain ⟨r, _, hproc⟩ := List.mem_filterMap.mp hd
  by_cases hk : keeps_after_clamp w h r
  · rw [process_det_of_keeps dn cn cl w h r hk] at hproc
    obtain rfl := Option.some.injEq _ _ |>.mp hproc |>.symm
    obtain ⟨hx, hy⟩ := hk
    have hx1 := clamp1_nonneg w r.x1
    have hy1 := clamp1_nonneg h r.y1
    exact ⟨hx1, hx, clamp1_le_of_pos w r.x2 (lt_of_le_of_lt hx1 hx), hy1, hy,
      clamp1_le_of_pos h r.y2 (lt_of_le_of_lt hy1 hy)⟩
  · rw [process_det_of_not_keeps dn cn cl w h r hk] at hproc
    cases hproc

/-- The pipeline emits exactly one detection per raw box whose clamped crop
is non-degenerate, whatever the classification outcomes are. -/
theorem run_detections_length (dn cn : ℕ → Option String)
    (cl : ℤ × ℤ × ℤ × ℤ → ClsEffect) (w h : ℕ) (raw : List RawDet) :
    (YoloPipeline.run dn cn cl w h raw).detections.length =
      (raw.filter (fun r => keeps_after_clamp w h r)).length :=
  length_filterMap_eq_filter _ _ (process_det_isSome dn cn cl w h) raw

/-- A crop whose classification block crashed still contributes its
detection, carrying the detector's own label and confidence. -/
theorem run_mem_of_crash (dn cn : ℕ → Option String)
    (cl : ℤ × ℤ × ℤ × ℤ → ClsEffect) (w h : ℕ) (raw : List RawDet) (r : RawDet)
    (hr : r ∈ raw) (hk : keeps_after_clamp w h r)
    (hcrash : cl (clamp_box w h r) = ClsEffect.crashed) :
    (⟨clamp1 w r.x1, clamp1 h r.y1, clamp1 w r.x2, clamp1 h r.y2,
        (dn r.cls_idx).getD ("class_" ++ toString r.cls_idx),
        pyRound 4 r.conf⟩ : PipelineDet) ∈
      (YoloPipeline.run dn cn cl w h raw).detections := by
  apply List.mem_filterMap.mpr
  refine ⟨r, hr, ?_⟩
  rw [process_det_of_keeps dn cn cl w h r hk, hcrash]
  rfl

/-- Crops handed to the classification model always have positive width and
height. -/
theorem crop_classified_nondeg (cl : ℤ × ℤ × ℤ × ℤ → ClsEffect) (w h : ℕ)
    (r : RawDet) (rect : ℤ × ℤ × ℤ × ℤ)
    (hc : YoloPipeline.crop_classified cl w h r = some rect) :
    rect.1 < rect.2.2.1 ∧ rect.2.1 < rect.2.2.2 := by
  unfold YoloPipeline.crop_classified at hc
  by_cases h1 : clamp1 w r.x2 ≤ clamp1 w r.x1 ∨ clamp1 h r.y2 ≤ clamp1 h r.y1
  · rw [if_pos h1] at hc
    cases hc
  · rw [if_neg h1] at hc
    by_cases h2 : cl (clamp1 w r.x1, clamp1 h r.y1, clamp1 w r.x2, clamp1 h r.y2) =
        ClsEffect.convertFailed
    · rw [if_pos h2] at hc
      cases hc
    · rw [if_neg h2] at hc
      obtain rfl := (Option.some.injEq _ _).mp hc |>.symm
      push_neg at h1
      exact h1

theorem char_hex_val_hex_char (d : ℕ) (hd : d < 16) :
    char_hex_val (hex_char d) = some d := by
  interval_cases d <;> decide

theorem digit_char_isDigit (d : ℕ) (hd : d < 10) : (digit_char d).isDigit = true := by
  interval_cases d <;> decide

theorem digit_char_val (d : ℕ) (hd : d < 10) : (digit_char d).toNat - 48 = d := by
  interval_cases d <;> decide

theorem parse_digits_aux_spec (ds : List Char) (hds : ∀ c ∈ ds, c.isDigit = true)
    (rest : List Char) (hrest : no_digit_head rest) (acc : ℕ) :
    parse_digits_aux acc (ds ++ rest) =
      (ds.foldl (fun a c => 10 * a + (c.toNat - 48)) acc, rest) := by
  induction ds generalizing acc with
  | nil =>
      cases rest with
      | nil =>
          simp only [List.nil_append, List.foldl_nil]
          unfold parse_digits_aux
          rfl
      | cons c cs =>
          have hc : c.isDigit = false := hrest
          simp only [List.nil_append, List.foldl_nil]
          unfold parse_digits_aux
          rw [if_neg (by simp [hc])]
  | cons c ds ih =>
      have hc : c.isDigit = true := hds c (by simp)
      simp only [List.cons_append, List.foldl_cons]
      unfold parse_digits_aux
      rw [if_pos hc]
      exact ih (fun x hx => hds x (by simp [hx])) _

theorem nat_digits_ne_nil (n : ℕ) : nat_digits n ≠ [] := by
  rw [nat_digits]
  split <;> simp

theorem nat_digits_all_digits (n : ℕ) : ∀ c ∈ nat_digits n, c.isDigit = true := by
  induction n using Nat.strong_induction_on with
  | _ n ih =>
      rw [nat_digits]
      split
      · next h =>
          intro c hc
          rw [List.mem_singleton] at hc
          rw [hc]
          exact digit_char_isDigit n h
      · next h =>
          intro c hc
          rcases List.mem_append.mp hc with hc | hc
          · exact ih (n / 10) (Nat.div_lt_self (by omega) (by norm_num)) c hc
          · rw [List.mem_singleton] at hc
            rw [hc]
            exact digit_char_isDigit (n % 10) (Nat.mod_lt n (by norm_num))

theorem foldl_nat_digits (n : ℕ) : ∀ acc : ℕ,
    (nat_digits n).foldl (fun a c => 10 * a + (c.toNat - 48)) acc =
      acc * 10 ^ (nat_digits n).length + n := by
  induction n using Nat.strong_induction_on with
  | _ n ih =>
      intro acc
      rw [nat_digits]
      split
      · next h =>
          simp only [List.foldl_cons, List.foldl_nil, List.length_singleton]
          rw [digit_char_val n h]
          ring
      · next h =>
          rw [List.foldl_append, List.length_append,
            ih (n / 10) (Nat.div_lt_self (by omega) (by norm_num)) acc]
          simp only [List.foldl_cons, List.foldl_nil, List.length_singleton]
          rw [digit_char_val (n % 10) (Nat.mod_lt n (by norm_num))]
          have hdm : 10 * (n / 10) + n % 10 = n := Nat.div_add_mod n 10
          have hpow : 10 ^ ((nat_digits (n / 10)).length + 1) =
              10 ^ (nat_digits (n / 10)).length * 10 := pow_succ 10 _
          rw [hpow]
          ring_nf
          omega

theorem parse_nat_digits (n : ℕ) (rest : List Char) (hrest : no_digit_head rest) :
    parse_nat (nat_digits n ++ rest) = some (n, rest) := by
  obtain ⟨c, ds, hcd⟩ : ∃ c ds, nat_digits n = c :: ds := by
    cases h : nat_digits n with
    | nil => exact absurd h (nat_digits_ne_nil n)
    | cons c ds => exact ⟨c, ds, rfl⟩
  have hdig : c.isDigit = true := nat_digits_all_digits n c (by rw [hcd]; simp)
  have hds : ∀ x ∈ ds, x.isDigit = true := fun x hx =>
    nat_digits_all_digits n x (by rw [hcd]; simp [hx])
  rw [hcd, List.cons_append]
  unfold parse_nat
  show (if c.isDigit = true then some (parse_digits_aux (c.toNat - 48) (ds ++ rest))
    else none) = some (n, rest)
  rw [if_pos hdig]
  rw [parse_digits_aux_spec ds hds rest hrest]
  have hfold : ds.foldl (fun a c => 10 * a + (c.toNat - 48)) (c.toNat - 48) =
      (c :: ds).foldl (fun a c => 10 * a + (c.toNat - 48)) 0 := by
    simp [List.foldl_cons]
  rw [hfold, ← hcd, foldl_nat_digits n 0]
  simp

theorem parse_int_chars (v : ℤ) (rest : List Char) (hrest : no_digit_head rest) :
    parse_int (int_chars v ++ rest) = some (v, rest) := by
  unfold int_chars
  by_cases hv : v < 0
  · rw [if_pos hv, List.cons_append]
    have hstep : parse_int ('-' :: (nat_digits (-v).toNat ++ rest)) =
        (parse_nat (nat_digits (-v).toNat ++ rest)).map (fun p => (-(p.1 : ℤ), p.2)) := by
      unfold parse_int
      rfl
    rw [hstep, parse_nat_digits _ rest hrest]
    simp only [Option.map_some']
    congr 1
    have h0 : (0 : ℤ) ≤ -v := by omega
    rw [Int.toNat_of_nonneg h0]
    simp
  · rw [if_neg hv]
    obtain ⟨c, ds, hcd⟩ : ∃ c ds, nat_digits v.toNat = c :: ds := by
      cases h : nat_digits v.toNat with
      | nil => exact absurd h (nat_digits_ne_nil _)
      | cons c ds => exact ⟨c, ds, rfl⟩
    have hdig : c.isDigit = true := nat_digits_all_digits _ c (by rw [hcd]; simp)
    have hcne : ¬ c = '-' := by
      intro hEq
      rw [hEq] at hdig
      exact absurd hdig (by decide)
    rw [hcd, List.cons_append]
    unfold parse_int
    show (if c = '-' then (parse_nat (ds ++ rest)).map (fun p => (-(p.1 : ℤ), p.2))
      else (parse_nat (c :: (ds ++ rest))).map (fun p => ((p.1 : ℤ), p.2))) = some (v, rest)
    rw [if_neg hcne, ← List.cons_append, ← hcd, parse_nat_digits v.toNat rest hrest]
    simp only [Option.map_some']
    congr 1
    rw [Int.toNat_of_nonneg (by omega)]

theorem psb_quote (rest : List Char) : parse_str_body ('"' :: rest) = some ([], rest) := by
  conv_lhs => unfold parse_str_body
  rfl

theorem psb_cons (c : Char) (h1 : ¬ c = '"') (h2 : ¬ c = '\\') (cs : List Char) :
    parse_str_body (c :: cs) = (parse_str_body cs).map (fun p => (c :: p.1, p.2)) := by
  conv_lhs => unfold parse_str_body
  rw [if_neg h1, if_neg h2]

theorem psb_esc_quote (rest : List Char) :
    parse_str_body ('\\' :: '"' :: rest) =
      (parse_str_body rest).map (fun p => ('"' :: p.1, p.2)) := by
  conv_lhs => unfold parse_str_body
  rfl

theorem psb_esc_backslash (rest : List Char) :
    parse_str_body ('\\' :: '\\' :: rest) =
      (parse_str_body rest).map (fun p => ('\\' :: p.1, p.2)) := by
  conv_lhs => unfold parse_str_body
  rfl

theorem psb_esc_n (rest : List Char) :
    parse_str_body ('\\' :: 'n' :: rest) =
      (parse_str_body rest).map (fun p => ('\n' :: p.1, p.2)) := by
  conv_lhs => unfold parse_str_body
  rfl

theorem psb_esc_t (rest : List Char) :
    parse_str_body ('\\' :: 't' :: rest) =
      (parse_str_body rest).map (fun p => ('\t' :: p.1, p.2)) := by
  conv_lhs => unfold parse_str_body
  rfl

theorem psb_esc_r (rest : List Char) :
    parse_str_body ('\\' :: 'r' :: rest) =
      (parse_str_body rest).map (fun p => ('\r' :: p.1, p.2)) := by
  conv_lhs => unfold parse_str_body
  rfl

theorem psb_esc_b (rest : List Char) :
    parse_str_body ('\\' :: 'b' :: rest) =
      (parse_str_body rest).map (fun p => ('\x08' :: p.1, p.2)) := by
  conv_lhs => unfold parse_str_body
  rfl

theorem psb_esc_f (rest : List Char) :
    parse_str_body ('\\' :: 'f' :: rest) =
      (parse_str_body rest).map (fun p => ('\x0c' :: p.1, p.2)) := by
  conv_lhs => unfold parse_str_body
  rfl

theorem psb_esc_u (a b c2 d : Char) (rest : List Char) :
    parse_str_body ('\\' :: 'u' :: a :: b :: c2 :: d :: rest) =
      (match char_hex_val a, char_hex_val b, char_hex_val c2, char_hex_val d with
       | some ha, some hb, some hc, some hd =>
           (parse_str_body rest).map (fun p =>
             (Char.ofNat (4096 * ha + 256 * hb + 16 * hc + hd) :: p.1, p.2))
       | _, _, _, _ => none) := by
  conv_lhs => unfold parse_str_body
  rfl

theorem psb_esc_u_hex (ha hb hc hd : ℕ) (g1 : ha < 16) (g2 : hb < 16) (g3 : hc < 16)
    (g4 : hd < 16) (rest : List Char) :
    parse_str_body ('\\' :: 'u' :: hex_char ha :: hex_char hb :: hex_char hc ::
        hex_char hd :: rest) =
      (parse_str_body rest).map (fun p =>
        (Char.ofNat (4096 * ha + 256 * hb + 16 * hc + hd) :: p.1, p.2)) := by
  rw [psb_esc_u, char_hex_val_hex_char ha g1, char_hex_val_hex_char hb g2,
    char_hex_val_hex_char hc g3, char_hex_val_hex_char hd g4]

theorem parse_str_body_escape (cs rest : List Char) :
    parse_str_body (escape_chars cs ++ '"' :: rest) = some (cs, rest) := by
  induction cs with
  | nil => exact psb_quote rest
  | cons c cs ih =>
      show parse_str_body ((escape_char c ++ escape_chars cs) ++ '"' :: rest) = _
      rw [List.append_assoc]
      unfold escape_char
      split_ifs with h1 h2 h3 h4 h5 h6 h7 h8
      · subst h1
        show parse_str_body ('\\' :: '"' :: (escape_chars cs ++ '"' :: rest)) = _
        rw [psb_esc_quote, ih]
        rfl
      · subst h2
        show parse_str_body ('\\' :: '\\' :: (escape_chars cs ++ '"' :: rest)) = _
        rw [psb_esc_backslash, ih]
        rfl
      · subst h3
        show parse_str_body ('\\' :: 'n' :: (escape_chars cs ++ '"' :: rest)) = _
        rw [psb_esc_n, ih]
        rfl
      · subst h4
        show parse_str_body ('\\' :: 't' :: (escape_chars cs ++ '"' :: rest)) = _
        rw [psb_esc_t, ih]
        rfl
      · subst h5
        show parse_str_body ('\\' :: 'r' :: (escape_chars cs ++ '"' :: rest)) = _
        rw [psb_esc_r, ih]
        rfl
      · subst h6
        show parse_str_body ('\\' :: 'b' :: (escape_chars cs ++ '"' :: rest)) = _
        rw [psb_esc_b, ih]
        rfl
      · subst h7
        show parse_str_body ('\\' :: 'f' :: (escape_chars cs ++ '"' :: rest)) = _
        rw [psb_esc_f, ih]
        rfl
      · show parse_str_body ('\\' :: 'u' :: hex_char 0 :: hex_char 0 ::
            hex_char (c.toNat / 16) :: hex_char (c.toNat % 16) ::
            (escape_chars cs ++ '"' :: rest)) = _
        have hdiv : c.toNat / 16 < 16 := by omega
        have hmod : c.toNat % 16 < 16 := Nat.mod_lt _ (by norm_num)
        rw [psb_esc_u_hex 0 0 (c.toNat / 16) (c.toNat % 16) (by norm_num) (by norm_num)
          hdiv hmod, ih]
        simp only [Option.map_some']
        have harith : 4096 * 0 + 256 * 0 + 16 * (c.toNat / 16) + c.toNat % 16 = c.toNat := by
          omega
        rw [harith, Char.ofNat_toNat]
      · show parse_str_body (c :: (escape_chars cs ++ '"' :: rest)) = _
        rw [psb_cons c h1 h2, ih]
        rfl

theorem parse_entry_dumps (k : String) (v : ℤ) (rest : List Char)
    (hrest : no_digit_head rest) :
    parse_entry (json_dumps_entry k v ++ rest) = some ((k, v), rest) := by
  have hassoc : json_dumps_entry k v ++ rest =
      '"' :: (escape_chars k.data ++ '"' :: ':' :: ' ' :: (int_chars v ++ rest)) := by
    unfold json_dumps_entry
    simp [List.append_assoc]
  rw [hassoc]
  conv_lhs => unfold parse_entry
  show (match parse_str_body (escape_chars k.data ++ '"' :: ':' :: ' ' ::
        (int_chars v ++ rest)) with
    | some (kcs, r1) =>
        match r1 with
        | ':' :: ' ' :: r2 => (parse_int r2).map (fun p => ((String.mk kcs, p.1), p.2))
        | _ => none
    | none => none) = some ((k, v), rest)
  rw [parse_str_body_escape k.data (':' :: ' ' :: (int_chars v ++ rest))]
  show (parse_int (int_chars v ++ rest)).map (fun p => ((String.mk k.data, p.1), p.2)) =
    some ((k, v), rest)
  rw [parse_int_chars v rest hrest]
  rfl

theorem no_digit_head_rest_brace (es : List (String × ℤ)) :
    no_digit_head (json_dumps_rest es ++ ['\x7d']) := by
  cases es with
  | nil =>
      show ('\x7d').isDigit = false
      decide
  | cons e es =>
      show (',').isDigit = false
      decide

theorem length_le_json_dumps_rest (es : List (String × ℤ)) :
    es.length ≤ (json_dumps_rest es).length := by
  induction es with
  | nil => simp [json_dumps_rest]
  | cons e es ih =>
      show es.length + 1 ≤
        (',' :: ' ' :: (json_dumps_entry e.1 e.2 ++ json_dumps_rest es)).length
      simp only [List.length_cons, List.length_append]
      omega

theorem parse_entries_rest_dumps (es : List (String × ℤ)) :
    ∀ fuel : ℕ, es.length ≤ fuel →
      parse_entries_rest fuel (json_dumps_rest es ++ ['\x7d']) = some (es, []) := by
  induction es with
  | nil =>
      intro fuel _
      show parse_entries_rest fuel ['\x7d'] = some ([], [])
      conv_lhs => unfold parse_entries_rest
      rfl
  | cons e es ih =>
      intro fuel hfuel
      have hf1 : 1 ≤ fuel := le_trans (by simp) hfuel
      obtain ⟨fuel', rfl⟩ : ∃ f', fuel = f' + 1 := ⟨fuel - 1, by omega⟩
      show parse_entries_rest (fuel' + 1)
        (',' :: ' ' :: ((json_dumps_entry e.1 e.2 ++ json_dumps_rest es) ++ ['\x7d'])) =
        some (e :: es, [])
      rw [List.append_assoc]
      conv_lhs => unfold parse_entries_rest
      rw [if_neg (by decide), if_pos rfl]
      show (match parse_entry (json_dumps_entry e.1 e.2 ++ (json_dumps_rest es ++ ['\x7d'])) with
        | some (e, r) => (parse_entries_rest fuel' r).map (fun p => (e :: p.1, p.2))
        | none => none) = some (e :: es, [])
      rw [parse_entry_dumps e.1 e.2 _ (no_digit_head_rest_brace es)]
      show (parse_entries_rest fuel' (json_dumps_rest es ++ ['\x7d'])).map
        (fun p => ((e.1, e.2) :: p.1, p.2)) = some (e :: es, [])
      rw [ih fuel' (by simpa using Nat.le_of_succ_le_succ hfuel)]
      rfl

theorem parse_obj_step (fuel : ℕ) (cs : List Char) (c0 : Char) (t : List Char)
    (hcs : cs = c0 :: t) (h0 : ¬ c0 = '\x7d') :
    parse_obj fuel ('\x7b' :: cs) =
      match parse_entry cs with
      | some (e, r) => (parse_entries_rest fuel r).map (fun p => (e :: p.1, p.2))
      | none => none := by
  subst hcs
  conv_lhs => unfold parse_obj
  show (if ('\x7b' : Char) = '\x7b' then
      (if c0 = '\x7d' then some (([] : List (String × ℤ)), (c0 :: t).tail)
       else
        match parse_entry (c0 :: t) with
        | some (e, r) => (parse_entries_rest fuel r).map (fun p => (e :: p.1, p.2))
        | none => none)
    else none) =
    match parse_entry (c0 :: t) with
    | some (e, r) => (parse_entries_rest fuel r).map (fun p => (e :: p.1, p.2))
    | none => none
  rw [if_pos rfl, if_neg h0]

theorem parse_obj_dumps (m : List (String × ℤ)) (fuel : ℕ) (hm : m.length ≤ fuel + 1) :
    parse_obj fuel (json_dumps_counts m).data = some (m, []) := by
  cases m with
  | nil => rfl
  | cons e es =>
      show parse_obj fuel ('\x7b' ::
        ((json_dumps_entry e.1 e.2 ++ json_dumps_rest es) ++ ['\x7d'])) = some (e :: es, [])
      have hcons : (json_dumps_entry e.1 e.2 ++ json_dumps_rest es) ++ ['\x7d'] =
          '"' :: ((escape_chars e.1.data ++ ['"', ':', ' '] ++ int_chars e.2) ++
            (json_dumps_rest es ++ ['\x7d'])) := by
        unfold json_dumps_entry
        simp [List.append_assoc]
      rw [parse_obj_step fuel _ '"' _ hcons (by decide)]
      have happ : (json_dumps_entry e.1 e.2 ++ json_dumps_rest es) ++ ['\x7d'] =
          json_dumps_entry e.1 e.2 ++ (json_dumps_rest es ++ ['\x7d']) := by
        simp [List.append_assoc]
      rw [happ, parse_entry_dumps e.1 e.2 _ (no_digit_head_rest_brace es)]
      show (parse_entries_rest fuel (json_dumps_rest es ++ ['\x7d'])).map
        (fun p => ((e.1, e.2) :: p.1, p.2)) = some (e :: es, [])
      rw [parse_entries_rest_dumps es fuel (by simpa using Nat.le_of_succ_le_succ hm)]
      rfl

theorem length_le_json_dumps_counts (m : List (String × ℤ)) :
    m.length ≤ (json_dumps_counts m).length + 1 := by
  cases m with
  | nil => simp
  | cons e es =>
      have h1 := length_le_json_dumps_rest es
      show es.length + 1 ≤ (String.mk ('\x7b' ::
        ((json_dumps_entry e.1 e.2 ++ json_dumps_rest es) ++ ['\x7d']))).length + 1
      have h2 : (String.mk ('\x7b' ::
          ((json_dumps_entry e.1 e.2 ++ json_dumps_rest es) ++ ['\x7d']))).length =
          ('\x7b' :: ((json_dumps_entry e.1 e.2 ++ json_dumps_rest es) ++ ['\x7d'])).length :=
        rfl
      rw [h2]
      simp only [List.length_cons, List.length_append]
      omega

/-- The counts dictionary survives the serialize/parse round trip through
`json.dumps` / `json.loads`. -/
theorem json_loads_dumps_counts (m : List (String × ℤ)) :
    json_loads_counts (json_dumps_counts m) = some m := by
  unfold json_loads_counts
  rw [parse_obj_dumps m (json_dumps_counts m).length (length_le_json_dumps_counts m)]

theorem json_dumps_counts_ne_empty (m : List (String × ℤ)) :
    json_dumps_counts m ≠ "" := by
  intro h
  have hd := congrArg String.data h
  cases m with
  | nil => simp [json_dumps_counts] at hd
  | cons e es => simp [json_dumps_counts] at hd

/-- Inserting a record and reading the history back yields an entry carrying
the same counts dictionary, total and dominant class. -/
theorem insert_get_history_roundtrip (table : List DbRow) (r : DbRecord) (limit : ℕ)
    (hlim : table.length + 1 ≤ limit) :
    ∃ entry ∈ get_history (insert_detection table r).2 limit,
      entry.entry_id = (insert_detection table r).1 ∧
      entry.counts = r.counts ∧ entry.total = r.total ∧
      entry.dominant = r.dominant := by
  have hrow_mem : inserted_row table r ∈ (insert_detection table r).2 := by
    simp [insert_detection]
  have hperm := List.perm_insertionSort ts_desc (insert_detection table r).2
  have hmem_sorted := hperm.mem_iff.mpr hrow_mem
  have hlen : (List.insertionSort ts_desc (insert_detection table r).2).length ≤ limit := by
    rw [hperm.length_eq]
    simpa [insert_detection] using hlim
  have htake : (List.insertionSort ts_desc (insert_detection table r).2).take limit =
      List.insertionSort ts_desc (insert_detection table r).2 :=
    List.take_of_length_le hlen
  refine ⟨row_to_entry (inserted_row table r), ?_, ?_, ?_, ?_, ?_⟩
  · unfold get_history
    rw [htake]
    exact List.mem_map_of_mem _ hmem_sorted
  · rfl
  · show (if json_dumps_counts r.counts = "" then []
      else (json_loads_counts (json_dumps_counts r.counts)).getD []) = r.counts
    rw [if_neg (json_dumps_counts_ne_empty r.counts), json_loads_dumps_counts r.counts]
    rfl
  · rfl
  · rfl

/-- C1: for every list of detections, the analyzer's overall verdict equals
the spec's escalation rule — Unsafe when more than one Unsafe-tier class is
present or some Unsafe-tier class has percentage above 20, else Caution when
some Caution-tier class is present, else Safe, with tiers looked up in the
safety policy and unknown labels defaulting to Safe. -/
theorem C1_verdict_rule (l : List Box) :
    (analyze_result l).overall_verdict.verdict = verdict_spec l :=
  overall_verdict_of_eq_spec l

/-- C2 counterexample: six detections of six distinct classes make every
percentage round(100/6, 1) = 16.7, so the percentages sum to 100.2, outside
the claimed interval [99.9, 100.1]. -/
theorem C2_counterexample :
    0 < (analyze_result c2_boxes).total_detections ∧
    ((analyze_result c2_boxes).per_class.map PerClassRow.percentage).sum = 501/5 ∧
    ¬(999/10 ≤ ((analyze_result c2_boxes).per_class.map PerClassRow.percentage).sum ∧
      ((analyze_result c2_boxes).per_class.map PerClassRow.percentage).sum ≤ 1001/10) := by
  refine ⟨by decide, by decide, ?_⟩
  decide

/-- C2 (amended): per-class percentages and average confidences follow the
rounding formulas, and the percentage sum differs from 100 by at most 1/20
per distinct class (so it lies in [99.9, 100.1] for up to three classes);
with no detections the per-class list is empty. -/
theorem C2_percentages (l : List Box) :
    (0 < l.length →
      (∀ p ∈ (analyze_result l).per_class,
          p.count = label_count p.cls l ∧
          p.percentage = pyRound 1 ((p.count : ℚ) / (l.length : ℚ) * 100) ∧
          p.avg_confidence =
            pyRound 3 (label_conf_sum p.cls l / (label_count p.cls l : ℚ))) ∧
      |((analyze_result l).per_class.map PerClassRow.percentage).sum - 100| ≤
        ((analyze_result l).per_class.length : ℚ) * (1/20)) ∧
    (l.length = 0 → (analyze_result l).per_class = []) := by
  constructor
  · intro h
    refine ⟨?_, per_class_percentage_sum_bound l h⟩
    intro p hp
    obtain ⟨hcount, hperc, havg⟩ := mem_per_class_formulas l p hp
    refine ⟨hcount, ?_, havg⟩
    rw [hperc, if_pos h, hcount]
  · intro h
    have hnil : l = [] := List.length_eq_zero.mp h
    subst hnil
    rfl

/-- C2 witness: on two algae detections the percentage-sum bound holds. -/
theorem C2_percentages_witness :
    |((analyze_result c2w_boxes).per_class.map PerClassRow.percentage).sum - 100| ≤
      ((analyze_result c2w_boxes).per_class.length : ℚ) * (1/20) :=
  ((C2_percentages c2w_boxes).1 (by decide)).2

/-- C3 counterexample: with the model unavailable, `run_inference_on_bytes`
returns the fabricated mock boxes as a successful result instead of
signalling an error. -/
theorem C3_counterexample :
    run_inference_on_bytes no_model_engine [] [c3_mock_box] =
      Except.ok ([c3_mock_box], 1) := rfl

/-- C3 (amended): when the model is unavailable, `analyze_image_bytes`
raises its RuntimeError, but `run_inference_on_bytes` silently returns the
random mock boxes as real output, and `analyze_snapshot` returns a success
payload with species "No Model" and zero detections. -/
theorem C3_model_unavailable (m : EngineModel) (real_raw : List RawDet)
    (mock : List EngineBox) (boxes binfo : List Box)
    (h : ¬(m.model_type = "yolov8" ∧ m.has_model)) :
    run_inference_on_bytes m real_raw mock = Except.ok (mock, mock.length) ∧
    analyze_image_bytes false boxes =
      Except.error "Model not initialized. Call initialize_model() first." ∧
    analyze_snapshot false binfo =
      Except.ok ⟨"No Model", "YOLO detection model failed to load. Check backend logs.",
        0, true, 0, [], []⟩ := by
  refine ⟨?_, rfl, rfl⟩
  simp only [run_inference_on_bytes]
  rw [if_neg h]

/-- C3 witness: the three behaviors at a concrete unavailable model. -/
theorem C3_model_unavailable_witness :
    run_inference_on_bytes no_model_engine [] [c3_mock_box] =
      Except.ok ([c3_mock_box], [c3_mock_box].length) ∧
    analyze_image_bytes false [] =
      Except.error "Model not initialized. Call initialize_model() first." ∧
    analyze_snapshot false [] =
      Except.ok ⟨"No Model", "YOLO detection model failed to load. Check backend logs.",
        0, true, 0, [], []⟩ :=
  C3_model_unavailable no_model_engine [] [c3_mock_box] [] [] (by decide)

/-- C4 counterexample: a zero-width crop is dropped entirely — the pipeline
output contains no detection for it at all, rather than keeping it with the
detector's label. -/
theorem C4_counterexample :
    (YoloPipeline.run no_names no_names crash_classify 10 10 [deg_raw]).detections = [] ∧
    (YoloPipeline.run no_names no_names crash_classify 10 10 [deg_raw]).classified_crops
      = [] := by
  exact ⟨rfl, rfl⟩

/-- C4 (amended): a detection whose crop is degenerate after clamping never
reaches the classification model and is dropped from the pipeline output
(its crop rectangle appears neither among the classified crops nor among the
emitted detections). -/
theorem C4_degenerate_crop (dn cn : ℕ → Option String)
    (cl : ℤ × ℤ × ℤ × ℤ → ClsEffect) (w h : ℕ) (raw : List RawDet) (r : RawDet)
    (hr : r ∈ raw)
    (hdeg : clamp1 w r.x2 ≤ clamp1 w r.x1 ∨ clamp1 h r.y2 ≤ clamp1 h r.y1) :
    clamp_box w h r ∉ (YoloPipeline.run dn cn cl w h raw).classified_crops ∧
    ∀ d ∈ (YoloPipeline.run dn cn cl w h raw).detections,
      (d.x1, d.y1, d.x2, d.y2) ≠ clamp_box w h r := by
  constructor
  · intro hmem
    obtain ⟨r', _, hcc⟩ := List.mem_filterMap.mp hmem
    obtain ⟨h1, h2⟩ := crop_classified_nondeg cl w h r' _ hcc
    simp only [clamp_box] at h1 h2
    omega
  · intro d hd heq
    obtain ⟨hb1, hb2, hb3, hb4, hb5, hb6⟩ := run_detections_bounds dn cn cl w h raw d hd
    simp only [clamp_box, Prod.mk.injEq] at heq
    obtain ⟨e1, e2, e3, e4⟩ := heq
    omega

/-- C4 witness: the degenerate-crop guarantees at a concrete input. -/
theorem C4_degenerate_crop_witness :
    clamp_box 10 10 deg_raw ∉
      (YoloPipeline.run no_names no_names crash_classify 10 10 [deg_raw]).classified_crops ∧
    ∀ d ∈ (YoloPipeline.run no_names no_names crash_classify 10 10 [deg_raw]).detections,
      (d.x1, d.y1, d.x2, d.y2) ≠ clamp_box 10 10 deg_raw :=
  C4_degenerate_crop no_names no_names crash_classify 10 10 [deg_raw] deg_raw
    (by decide) (by decide)

/-- C5: if the classification block crashes on one crop, that detection
falls back to the detector's own label and confidence and still appears in
the output, and the batch is never shortened — the output has exactly one
detection per non-degenerate raw box regardless of classification
failures. -/
theorem C5_per_crop_fallback (dn cn : ℕ → Option String)
    (cl : ℤ × ℤ × ℤ × ℤ → ClsEffect) (w h : ℕ) (raw : List RawDet) (r : RawDet)
    (hr : r ∈ raw) (hk : keeps_after_clamp w h r)
    (hcrash : cl (clamp_box w h r) = ClsEffect.crashed) :
    (⟨clamp1 w r.x1, clamp1 h r.y1, clamp1 w r.x2, clamp1 h r.y2,
        (dn r.cls_idx).getD ("class_" ++ toString r.cls_idx),
        pyRound 4 r.conf⟩ : PipelineDet) ∈
      (YoloPipeline.run dn cn cl w h raw).detections ∧
    (YoloPipeline.run dn cn cl w h raw).detections.length =
      (raw.filter (fun x => keeps_after_clamp w h x)).length :=
  ⟨run_mem_of_crash dn cn cl w h raw r hr hk hcrash,
    run_detections_length dn cn cl w h raw⟩

/-- C5 witness: a two-detection batch where classification crashes on the
first crop. -/
theorem C5_per_crop_fallback_witness :
    (⟨clamp1 10 c5_raw1.x1, clamp1 10 c5_raw1.y1, clamp1 10 c5_raw1.x2, clamp1 10 c5_raw1.y2,
        (no_names c5_raw1.cls_idx).getD ("class_" ++ toString c5_raw1.cls_idx),
        pyRound 4 c5_raw1.conf⟩ : PipelineDet) ∈
      (YoloPipeline.run no_names c5_cls_names c5_classify 10 10 [c5_raw1, c5_raw2]).detections ∧
    (YoloPipeline.run no_names c5_cls_names c5_classify 10 10 [c5_raw1, c5_raw2]).detections.length =
      ([c5_raw1, c5_raw2].filter (fun x => keeps_after_clamp 10 10 x)).length :=
  C5_per_crop_fallback no_names c5_cls_names c5_classify 10 10 [c5_raw1, c5_raw2] c5_raw1
    (by decide) (by decide) (by decide)

/-- C6 counterexample: with zero detections the verdict's reason text is
"No concerning classes detected.", not "no detections." as claimed. -/
theorem C6_counterexample :
    (analyze_result []).overall_verdict.reason = "No concerning classes detected." ∧
    (analyze_result []).overall_verdict.reason ≠ "no detections." := by
  decide

/-- C6 (amended): zero detections give total 0, an empty per-class list,
verdict Safe, and the reason text "No concerning classes detected.". -/
theorem C6_zero_detections :
    (analyze_result []).total_detections = 0 ∧
    (analyze_result []).per_class = [] ∧
    (analyze_result []).overall_verdict =
      ⟨Safety.Safe, "No concerning classes detected."⟩ := by
  decide

/-- C7 counterexample: two classes with equal counts keep insertion order,
so a lower-average-confidence class can precede a higher one — the claimed
(count, average confidence) descending order fails. -/
theorem C7_counterexample : ¬ claimed_sort_ok ((analyze_result c7_boxes).per_class) := by
  decide

/-- C7 (amended): `analyze_image_bytes` sorts its per-class rows by count
descending only (ties keep first-occurrence order), while `analyze_snapshot`
sorts by the pair (count, average confidence) descending as the spec
describes. -/
theorem C7_sort_orders (l lv : List Box) :
    ((analyze_result l).per_class).Pairwise count_ge ∧
    (live_per_class_sorted lv).Pairwise live_count_conf_ge :=
  ⟨List.sorted_insertionSort count_ge (per_class_of l),
    List.sorted_insertionSort live_count_conf_ge (live_per_class_of lv)⟩

/-- C8: every detection emitted by the pipeline has clamped coordinates with
0 ≤ x1 < x2 ≤ W and 0 ≤ y1 < y2 ≤ H — inside the image. -/
theorem C8_boxes_in_bounds (dn cn : ℕ → Option String)
    (cl : ℤ × ℤ × ℤ × ℤ → ClsEffect) (w h : ℕ) (raw : List RawDet)
    (d : PipelineDet) (hd : d ∈ (YoloPipeline.run dn cn cl w h raw).detections) :
    0 ≤ d.x1 ∧ d.x1 < d.x2 ∧ d.x2 ≤ (w : ℤ) ∧
    0 ≤ d.y1 ∧ d.y1 < d.y2 ∧ d.y2 ≤ (h : ℤ) :=
  run_detections_bounds dn cn cl w h raw d hd

/-- C8 witness: the bounds at one concrete emitted detection. -/
theorem C8_boxes_in_bounds_witness :
    0 ≤ c8_det.x1 ∧ c8_det.x1 < c8_det.x2 ∧ c8_det.x2 ≤ (10 : ℤ) ∧
    0 ≤ c8_det.y1 ∧ c8_det.y1 < c8_det.y2 ∧ c8_det.y2 ≤ (10 : ℤ) :=
  C8_boxes_in_bounds no_names no_names crash_classify 10 10 [c8_raw] c8_det (by decide)

/-- C9: a database failure after a computed analysis is non-fatal — both
routes return status 200 with the analysis payload unchanged; only the
inserted-id fields differ from the success case. -/
theorem C9_persistence_best_effort (result : AnalysisResult) (data : PredictData)
    (url : String) (e e' : String) (i : ℕ) :
    analyze_image result (Except.error e) = analyze_image result (Except.ok i) ∧
    (analyze_image result (Except.error e)).status = 200 ∧
    (analyze_image result (Except.error e)).body = result ∧
    (predict_store data url (Except.error e')).status = 200 ∧
    (predict_store data url (Except.error e')).total_count = data.total ∧
    predict_store data url (Except.error e') =
      { predict_store data url (Except.ok i) with analysis_id := 0, id_field := none } :=
  ⟨rfl, rfl, rfl, rfl, rfl, rfl⟩

/-- C10 witness: inserting one record into an empty table and reading the
history back. -/
theorem C10_roundtrip_witness :
    ([] : List DbRow).length + 1 ≤ 100 ∧
    ∃ entry ∈ get_history (insert_detection [] c10_record).2 100,
      entry.entry_id = (insert_detection [] c10_record).1 ∧
      entry.counts = c10_record.counts ∧ entry.total = c10_record.total ∧
      entry.dominant = c10_record.dominant :=
  ⟨by decide, insert_get_history_roundtrip [] c10_record 100 (by decide)⟩

end EMS
